import Mathlib

/-!
Verification development for the `data_extraction` repository.

The repository is a batch pipeline over delimited text reports from an
ophthalmic imaging instrument.  We shallowly embed the pure cores of the
relevant Python functions:

* `src/oct/combine.py`    — the Cross-Table Merger (`merge_rows_cellwise`,
  `merge_csv` and its helpers);
* `src/oct/angio.py`      — the single-verdict Eye-Side Resolver
  (`detect_eye_side`), the VD Sector Table Extractor, the per-file row
  builder and the in-directory per-ID merge of `main`;
* `src/oct/oct.py`        — the presence-mode Eye-Side Resolver
  (`detect_eye_presence`), the thickness extractor and row builder;
* `src/oct/noise_mask.py` — the Noise Mask Applier (`apply_noise_mask`);
* `src/age/age_data.py`   — the Identifier Canonicalizer (the module-level
  ID-classification ladder).

Modelling conventions, stated once here:

* Python `dict[str, V]` values are association lists `List (String × V)`
  with Python's insertion semantics: assignment to an existing key replaces
  its value in place, assignment to a new key appends (`dset`), and lookup
  returns the value of the (unique) matching key (`dget`).
* Python `str.strip()` is `pyStrip`, `str.upper()` is `pyUpper` (ASCII
  data), `str.startswith` is `pyStartsWith`: list-level models of the
  string operations, since the core `String` versions do not reduce in the
  kernel.
* Parsed floats are represented by their trimmed, comma-stripped numeral
  text: no claim computes with the numeric value, only with parse
  success/failure and with which cell's value is propagated, so this
  representation is lossless for every property below.
* Python's `float(...)` string acceptance is modelled by `pyFloatParses`:
  optional sign, then `inf`/`infinity`/`nan` (case-insensitive) or a
  decimal literal `digitpart? "." digitpart? | digitpart` with at least one
  mantissa digit, single underscores allowed between digits, and an
  optional exponent.  Digits cover the ASCII and full-width ranges that
  occur in this (Japanese-locale) corpus, matching Python's Unicode-decimal
  acceptance for them.
-/

/-- Lookup in a Python-style string-keyed dict (association list).
Returns the value of the first matching key; keys are unique in every
dict the sources construct. -/
def dget {β : Type} : List (String × β) → String → Option β
  | [], _ => none
  | p :: rest, key => if p.1 = key then some p.2 else dget rest key

/-- Python dict assignment `d[key] = val`: replace the value at an existing
key in place, otherwise append the new binding at the end. -/
def dset {β : Type} : List (String × β) → String → β → List (String × β)
  | [], key, val => [(key, val)]
  | p :: rest, key, val =>
    if p.1 = key then (key, val) :: rest else p :: dset rest key val

theorem dget_dset {β : Type} (d : List (String × β)) (k k' : String) (v : β) :
    dget (dset d k v) k' = if k' = k then some v else dget d k' := by
  induction d with
  | nil =>
    by_cases h : k' = k
    · simp [dget, dset, h]
    · have h' : ¬(k = k') := fun hh => h hh.symm
      simp [dget, dset, h, h']
  | cons p rest ih =>
    by_cases hp : p.1 = k
    · by_cases h : k' = k
      · simp [dset, hp, dget, h]
      · have hk : ¬(k = k') := fun hh => h hh.symm
        have hpk : ¬(p.1 = k') := fun hh => h ((hp.symm.trans hh).symm)
        simp [dset, hp, dget, h, hk, hpk]
    · by_cases h : p.1 = k'
      · have hk : ¬(k' = k) := fun hh => hp (h.trans hh)
        simp [dset, hp, dget, h, hk]
      · simp [dset, hp, dget, h, ih]

theorem dget_map_self {β : Type} (l : List String) (f : String → β) (c : String)
    (h : c ∈ l) : dget (l.map fun x => (x, f x)) c = some (f c) := by
  induction l with
  | nil => cases h
  | cons x rest ih =>
    by_cases hx : x = c
    · simp [dget, hx]
    · rcases List.mem_cons.mp h with h' | h'
      · exact absurd h'.symm hx
      · simp [dget, hx, ih h']

theorem dget_eq_none_of_not_mem {β : Type} (d : List (String × β)) (k : String)
    (h : k ∉ d.map Prod.fst) : dget d k = none := by
  induction d with
  | nil => rfl
  | cons p rest ih =>
    simp only [List.map_cons, List.mem_cons] at h
    push_neg at h
    have h1 : ¬(p.1 = k) := fun hh => h.1 hh.symm
    simp [dget, h1, ih h.2]

/-! ### Python string primitives

Core `String.trim`/`String.toUpper`/`String.startsWith` do not reduce in
the kernel, so the corresponding Python operations are modelled directly
over the character list of the string. -/

/-- Whitespace stripped by Python's `str.strip()`: ASCII whitespace plus
the ideographic (full-width) space occurring in this corpus. -/
def isPySpace (c : Char) : Bool :=
  c = ' ' || c = '\t' || c = '\n' || c = '\r' || c = '\x0b' || c = '\x0c' || c = '　'

/-- Python `s.strip()`. -/
def pyStrip (s : String) : String :=
  String.mk (((s.toList.dropWhile isPySpace).reverse.dropWhile isPySpace).reverse)

/-- Python `s.upper()` (ASCII data). -/
def pyUpper (s : String) : String :=
  String.mk (s.toList.map Char.toUpper)

/-- Python `s.startswith(p)`. -/
def pyStartsWith (s p : String) : Bool :=
  List.isPrefixOf p.toList s.toList

/-- Python `",".join(r)`. -/
def joinComma (r : List String) : String :=
  match r with
  | [] => ""
  | x :: xs => xs.foldl (fun acc y => acc ++ "," ++ y) x

/-! ### Python numeric-string parsing (`float(...)` acceptance) -/

/-- Decimal digit as accepted by Python's Unicode-aware `\d` and `float`:
the ASCII range plus the full-width range used in this corpus. -/
def isPyDigit (c : Char) : Bool := c.isDigit || ('０' ≤ c && c ≤ '９')

/-- Consume the continuation of a digit run: further digits, with single
underscores allowed between digits (Python numeric-literal rule). -/
def pyDigitsAux : List Char → List Char
  | [] => []
  | c :: rest =>
    if isPyDigit c then pyDigitsAux rest
    else if c = '_' then
      match rest with
      | d :: rest2 => if isPyDigit d then pyDigitsAux rest2 else c :: rest
      | [] => [c]
    else c :: rest

/-- Consume a `digitpart` (at least one digit, single underscores between
digits); `none` if the input does not start with a digit. -/
def pyDigits (cs : List Char) : Option (List Char) :=
  match cs with
  | c :: rest => if isPyDigit c then some (pyDigitsAux rest) else none
  | [] => none

/-- Drop one optional leading ASCII sign. -/
def stripSign : List Char → List Char
  | '+' :: r => r
  | '-' :: r => r
  | s => s

/-- The special words accepted by `float` (case-insensitive). -/
def pyFloatWord (cs : List Char) : Bool :=
  cs.map Char.toLower = "inf".toList
    || cs.map Char.toLower = "infinity".toList
    || cs.map Char.toLower = "nan".toList

/-- Consume a float mantissa: `digitpart ["." [digitpart]] | "." digitpart`. -/
def pyMantissa (cs : List Char) : Option (List Char) :=
  match cs with
  | '.' :: rest => pyDigits rest
  | _ =>
    match pyDigits cs with
    | none => none
    | some rest =>
      match rest with
      | '.' :: rest2 =>
        match pyDigits rest2 with
        | some rest3 => some rest3
        | none => some rest2
      | _ => some rest

/-- An exponent part `("e"|"E") [sign] digitpart` consuming all of `cs`. -/
def pyExponentOk (cs : List Char) : Bool :=
  match cs with
  | c :: rest => (c = 'e' || c = 'E') && (pyDigits (stripSign rest) = some [])
  | [] => false

/-- A full decimal float literal (after the optional leading sign). -/
def pyFloatNumber (cs : List Char) : Bool :=
  match pyMantissa cs with
  | none => false
  | some rest => rest = [] || pyExponentOk rest

/-- Whether Python's `float(s)` succeeds on the already-stripped string `s`. -/
def pyFloatParses (s : String) : Bool :=
  pyFloatWord (stripSign s.toList) || pyFloatNumber (stripSign s.toList)

/-! ### `src/oct/combine.py` — the Cross-Table Merger -/

namespace Combine

/-- `is_number_str` (combine.py:127): strip, reject the empty string, then
test whether `float` parses the remainder. -/
def is_number_str (s : String) : Bool :=
  if pyStrip s = "" then false else pyFloatParses (pyStrip s)

/-- One row of `to_dicts` (combine.py:62): pair each cell with its header
by position (extra cells are dropped), then pad every header column that
was never written with `""`. -/
def to_dict_row (header row : List String) : List (String × String) :=
  let d := (List.zip header row).foldl (fun d p => dset d p.1 p.2) []
  header.foldl (fun d h => if (dget d h).isSome then d else dset d h "") d

/-- `to_dicts` (combine.py:62). -/
def to_dicts (header : List String) (data : List (List String)) :
    List (List (String × String)) :=
  data.map (to_dict_row header)

/-- `union_columns` (combine.py:81): drop blank column names, put `"ID"`
first when present, then the priority table's remaining columns in order,
then the base table's unseen columns in order. -/
def union_columns (h1 h2 : List String) : List String :=
  let a := h1.filter (fun c => !(c = "") && !(pyStrip c = ""))
  let b := h2.filter (fun c => !(c = "") && !(pyStrip c = ""))
  let cols0 : List String := if "ID" ∈ a || "ID" ∈ b then ["ID"] else []
  let cols1 := a.foldl (fun cols c =>
    if c = "ID" then cols else if c ∈ cols then cols else cols ++ [c]) cols0
  b.foldl (fun cols c =>
    if c = "ID" then cols else if c ∈ cols then cols else cols ++ [c]) cols1

/-- `index_by_id` (combine.py:111): key each row dict by its stripped `ID`
cell, skipping rows with a blank key; a later row with the same key
replaces the earlier one. -/
def index_by_id (rows : List (List (String × String))) :
    List (String × List (String × String)) :=
  rows.foldl (fun idx d =>
    if pyStrip ((dget d "ID").getD "") = "" then idx
    else dset idx (pyStrip ((dget d "ID").getD "")) d) []

/-- `ensure_columns` (combine.py:122): reshape a row dict to exactly the
given column set, filling missing columns with `""`. -/
def ensure_columns (d : List (String × String)) (columns : List String) :
    List (String × String) :=
  columns.map fun c => (c, (dget d c).getD "")

/-- Python's `x or y or ""` over optional strings: the first truthy
(non-empty) value, defaulting to `""`. -/
def pyOrElse (x y : Option String) : String :=
  match x with
  | some s => if s = "" then (match y with
      | some t => t
      | none => "") else s
  | none => match y with
    | some t => t
    | none => ""

/-- `merge_rows_cellwise` (combine.py:141): per column, the stripped new
cell wins when both strip-parse as numbers, the unique parsing cell wins
when exactly one does, and the result is `""` when neither does; the `ID`
column is filled new-then-old. -/
def merge_rows_cellwise (old_row new_row : List (String × String))
    (columns : List String) : List (String × String) :=
  columns.map fun col =>
    (col,
      if col = "ID" then
        pyStrip (pyOrElse (dget new_row col) (dget old_row col))
      else
        let old_val := pyStrip ((dget old_row col).getD "")
        let new_val := pyStrip ((dget new_row col).getD "")
        let old_is_num := is_number_str old_val
        let new_is_num := is_number_str new_val
        if old_is_num && new_is_num then new_val
        else if old_is_num && !new_is_num then old_val
        else if !old_is_num && new_is_num then new_val
        else "")

/-- The per-identifier dispatch of `merge_csv` (combine.py:204–220): rows
present in only one table are passed through `ensure_columns`; rows
present in both are merged cell-wise. -/
def merged_by_id (new_header : List String) (new_data : List (List String))
    (old_header : List String) (old_data : List (List String))
    (id : String) : Option (List (String × String)) :=
  match dget (index_by_id (to_dicts old_header old_data)) id,
        dget (index_by_id (to_dicts new_header new_data)) id with
  | none, none => none
  | none, some new_row =>
    some (ensure_columns new_row (union_columns new_header old_header))
  | some old_row, none =>
    some (ensure_columns old_row (union_columns new_header old_header))
  | some old_row, some new_row =>
    some (merge_rows_cellwise
      (ensure_columns old_row (union_columns new_header old_header))
      (ensure_columns new_row (union_columns new_header old_header))
      (union_columns new_header old_header))

end Combine

theorem dget_ensure_columns (d : List (String × String)) (columns : List String)
    (col : String) (h : col ∈ columns) :
    dget (Combine.ensure_columns d columns) col = some ((dget d col).getD "") := by
  unfold Combine.ensure_columns
  exact dget_map_self columns (fun c => (dget d c).getD "") col h

/-- **C1** — Cross-Table Merger cell rule.  For an identifier keyed in both
input tables and a non-ID column of the column union, the merged cell is
the priority (new) table's cell when both cells strip-parse as numbers,
the unique parsing cell's value when exactly one does (regardless of which
table holds it), and the empty string (missing) when neither does.  (The
code strips cells before comparing and storing, so "the table's value" is
its stripped cell text.) -/
theorem c1_cross_table_merge_cell
    (new_header old_header : List String)
    (new_data old_data : List (List String))
    (id col : String) (old_row new_row : List (String × String))
    (ho : dget (Combine.index_by_id (Combine.to_dicts old_header old_data)) id
      = some old_row)
    (hn : dget (Combine.index_by_id (Combine.to_dicts new_header new_data)) id
      = some new_row)
    (hc : col ∈ Combine.union_columns new_header old_header)
    (hid : ¬(col = "ID")) :
    ∃ merged,
      Combine.merged_by_id new_header new_data old_header old_data id
          = some merged ∧
      dget merged col =
        some
          (if Combine.is_number_str (pyStrip ((dget old_row col).getD ""))
              ∧ Combine.is_number_str (pyStrip ((dget new_row col).getD "")) then
            pyStrip ((dget new_row col).getD "")
          else if Combine.is_number_str (pyStrip ((dget old_row col).getD "")) then
            pyStrip ((dget old_row col).getD "")
          else if Combine.is_number_str (pyStrip ((dget new_row col).getD "")) then
            pyStrip ((dget new_row col).getD "")
          else "") := by
  unfold Combine.merged_by_id
  rw [ho, hn]
  refine ⟨_, rfl, ?_⟩
  unfold Combine.merge_rows_cellwise
  rw [dget_map_self _ _ col hc]
  rw [dget_ensure_columns old_row _ col hc, dget_ensure_columns new_row _ col hc]
  simp only [hid, if_false, Option.getD_some]
  cases ho2 : Combine.is_number_str (pyStrip ((dget old_row col).getD ""))
    <;> cases hn2 : Combine.is_number_str (pyStrip ((dget new_row col).getD ""))
    <;> simp [ho2, hn2]

/-- Witness for C1 on concrete two-row tables: both numeric → new wins
("5.0" over "3.0"); only old numeric → old kept ("2.0"); neither numeric →
missing. -/
theorem c1_witness :
    (∃ merged,
      Combine.merged_by_id ["ID", "R_Center"] [["EG0001", "5.0"]]
          ["ID", "R_Center"] [["EG0001", "3.0"]] "EG0001" = some merged ∧
      dget merged "R_Center" = some "5.0") ∧
    (∃ merged,
      Combine.merged_by_id ["ID", "L_Center"] [["EG0001", ""]]
          ["ID", "L_Center"] [["EG0001", "2.0"]] "EG0001" = some merged ∧
      dget merged "L_Center" = some "2.0") ∧
    (∃ merged,
      Combine.merged_by_id ["ID", "L_Center"] [["EG0001", ""]]
          ["ID", "L_Center"] [["EG0001", "abc"]] "EG0001" = some merged ∧
      dget merged "L_Center" = some "") := by
  refine ⟨?_, ?_, ?_⟩
  · have h := c1_cross_table_merge_cell ["ID", "R_Center"] ["ID", "R_Center"]
      [["EG0001", "5.0"]] [["EG0001", "3.0"]] "EG0001" "R_Center"
      [("ID", "EG0001"), ("R_Center", "3.0")]
      [("ID", "EG0001"), ("R_Center", "5.0")]
      (by decide) (by decide) (by decide) (by decide)
    obtain ⟨m, hm, hv⟩ := h
    exact ⟨m, hm, by rw [hv]; decide⟩
  · have h := c1_cross_table_merge_cell ["ID", "L_Center"] ["ID", "L_Center"]
      [["EG0001", ""]] [["EG0001", "2.0"]] "EG0001" "L_Center"
      [("ID", "EG0001"), ("L_Center", "2.0")]
      [("ID", "EG0001"), ("L_Center", "")]
      (by decide) (by decide) (by decide) (by decide)
    obtain ⟨m, hm, hv⟩ := h
    exact ⟨m, hm, by rw [hv]; decide⟩
  · have h := c1_cross_table_merge_cell ["ID", "L_Center"] ["ID", "L_Center"]
      [["EG0001", ""]] [["EG0001", "abc"]] "EG0001" "L_Center"
      [("ID", "EG0001"), ("L_Center", "abc")]
      [("ID", "EG0001"), ("L_Center", "")]
      (by decide) (by decide) (by decide) (by decide)
    obtain ⟨m, hm, hv⟩ := h
    exact ⟨m, hm, by rw [hv]; decide⟩

/-! ### Shared row-scanning helpers for `angio.py` / `oct.py` -/

/-- A fully blank row: no cell has non-whitespace content (`not row or not
any(cell.strip() for cell in row)` — the empty row is blank too). -/
def isBlankRow (row : List String) : Bool :=
  row.all (fun c => pyStrip c = "")

/-- The long joined `Eye` header line both scripts match as a loose
fallback (angio.py:65 / oct.py:63). -/
def EYE_HEADER_LINE : String :=
  "Eye,S/N,Version(F/S),Date,SSI,SLO,Focus[D],Ref[D],Axial[mm],SQI"

/-- Whether a row is the `Eye` section header: exact stripped first-cell
match, or the whole row joined with commas starting with the known header
line (angio.py:104–115 / oct.py:96–103). -/
def isEyeHeaderRow (r : List String) : Bool :=
  match r with
  | [] => false
  | c :: _ => pyStrip c = "Eye" || pyStartsWith (joinComma r) EYE_HEADER_LINE

/-- Index of the first `Eye` header row. -/
def find_eye_idx : List (List String) → Option Nat
  | [] => none
  | r :: rest =>
    if isEyeHeaderRow r then some 0 else (find_eye_idx rest).map (· + 1)

/-- `get_id_from_filename` (angio.py:187 / oct.py:173): try to match the
pattern `EG` + four digits at this position of the filename. -/
def matchEGAt : List Char → Option String
  | 'E' :: 'G' :: a :: b :: c :: d :: _ =>
    if isPyDigit a && isPyDigit b && isPyDigit c && isPyDigit d then
      some (String.mk ['E', 'G', a, b, c, d])
    else none
  | _ => none

/-- `re.search(r"(EG\d{4})", name)`: the leftmost match, scanning start
positions left to right. -/
def searchEG : List Char → Option String
  | [] => none
  | c :: rest =>
    match matchEGAt (c :: rest) with
    | some s => some s
    | none => searchEG rest

/-- `get_id_from_filename` (identical in angio.py:187 and oct.py:173): the
first `EG`+4-digit substring of the filename, else its first six
characters unvalidated. -/
def get_id_from_filename (name : String) : String :=
  (searchEG name.toList).getD (String.mk (name.toList.take 6))

/-- `sec.replace(" ", "_")` on sector names. -/
def underscore (s : String) : String :=
  String.mk (s.toList.map fun c => if c = ' ' then '_' else c)

/-- The nine recognized sectors (angio.py:40 / oct.py:42). -/
def SECTORS : List String :=
  ["Center",
   "Inner Temporal", "Inner Superior", "Inner Nasal", "Inner Inferior",
   "Outer Temporal", "Outer Superior", "Outer Nasal", "Outer Inferior"]

/-- `safe_float` (angio.py:82 / oct.py:78): strip, remove all commas,
`None` on the empty string or a parse failure; a successful parse is
represented by the parsed numeral text. -/
def safe_float (s : String) : Option String :=
  let t := String.mk ((pyStrip s).toList.filter fun c => ¬(c = ','))
  if t = "" then none
  else if pyFloatParses t then some t else none

/-! ### `src/oct/angio.py` — single-verdict resolver, VD extractor,
per-file row and in-directory per-ID merge -/

namespace Angio

/-- The scan of `detect_eye_side` (angio.py:120–134) over the rows after
the `Eye` header: blank rows are *skipped*; the first row whose stripped,
upper-cased first cell starts with `R` or `L` decides the side; a row
starting with `<` ends the scan with no verdict; any other row is skipped. -/
def scanSide : List (List String) → Option String
  | [] => none
  | row :: rest =>
    if isBlankRow row then scanSide rest
    else if pyStartsWith (pyUpper (pyStrip (row.headD ""))) "R" then some "R"
    else if pyStartsWith (pyUpper (pyStrip (row.headD ""))) "L" then some "L"
    else if pyStartsWith (pyUpper (pyStrip (row.headD ""))) "<" then none
    else scanSide rest

/-- `detect_eye_side` (angio.py:94). -/
def detect_eye_side (rows : List (List String)) : Option String :=
  match find_eye_idx rows with
  | none => none
  | some i => scanSide (rows.drop (i + 1))

/-- `<ETDRS 9 Sector Density>` tag (angio.py:62). -/
def ETDRS_DENSITY_TAG : String := "<ETDRS 9 Sector Density>"

/-- `find_etdrs_density_index` (angio.py:137). -/
def find_etdrs_density_index : List (List String) → Option Nat
  | [] => none
  | r :: rest =>
    if (match r with
        | [] => false
        | c :: _ => pyStrip c = ETDRS_DENSITY_TAG) then some 0
    else (find_etdrs_density_index rest).map (· + 1)

/-- The scan of `extract_etdrs_vd` (angio.py:170–183): skip blank rows,
stop at the next `<`-tagged section, and for each row whose stripped first
cell is a known sector with at least two cells, record column 1's parse
(a later occurrence overwrites an earlier one). -/
def vdScan : List (List String) → List (String × Option String) →
    List (String × Option String)
  | [], res => res
  | row :: rest, res =>
    if isBlankRow row then vdScan rest res
    else if pyStartsWith (pyStrip (row.headD "")) "<" then res
    else if (dget res (pyStrip (row.headD ""))).isSome && decide (1 < row.length) then
      vdScan rest (dset res (pyStrip (row.headD "")) (safe_float (row.getD 1 "")))
    else vdScan rest res

/-- `extract_etdrs_vd` (angio.py:145): all sectors start missing; if the
density tag is absent the all-missing map is returned. -/
def extract_etdrs_vd (rows : List (List String)) : List (String × Option String) :=
  match find_etdrs_density_index rows with
  | none => SECTORS.map fun s => (s, none)
  | some idx => vdScan (rows.drop (idx + 1)) (SECTORS.map fun s => (s, none))

/-- Output columns (angio.py:53). -/
def OUTPUT_COLUMNS : List String :=
  ["ID",
   "R_Center", "R_Inner_Temporal", "R_Inner_Superior", "R_Inner_Nasal",
   "R_Inner_Inferior", "R_Outer_Temporal", "R_Outer_Superior",
   "R_Outer_Nasal", "R_Outer_Inferior",
   "L_Center", "L_Inner_Temporal", "L_Inner_Superior", "L_Inner_Nasal",
   "L_Inner_Inferior", "L_Outer_Temporal", "L_Outer_Superior",
   "L_Outer_Nasal", "L_Outer_Inferior"]

/-- The side-prefixed columns: every output column except `ID`. -/
def SIDE_COLUMNS : List String := OUTPUT_COLUMNS.drop 1

/-- The all-missing cell dict `{col: None for col in OUTPUT_COLUMNS}`
(minus `ID`, which is carried separately as the row key). -/
def blankCells : List (String × Option String) :=
  SIDE_COLUMNS.map fun c => (c, none)

/-- The cell-filling loop of `process_file` (angio.py:208–217): for each
sector write its extracted value into the `R_`-column when the verdict is
`R`, into the `L_`-column when it is `L`, and nowhere otherwise. -/
def process_cells (eye : Option String) (vd : List (String × Option String)) :
    List (String × Option String) :=
  SECTORS.foldl (fun out sec =>
    if eye = some "R" then dset out ("R_" ++ underscore sec) ((dget vd sec).getD none)
    else if eye = some "L" then dset out ("L_" ++ underscore sec) ((dget vd sec).getD none)
    else out) blankCells

/-- One per-file candidate row: the identifier from the filename plus the
side-prefixed cells. -/
structure PRow where
  id : String
  cells : List (String × Option String)
deriving DecidableEq

/-- `process_file` (angio.py:196), minus I/O: rows already loaded, the
identifier already taken from the filename. -/
def process_rows (rows : List (List String)) (id : String) : PRow :=
  ⟨id, process_cells (detect_eye_side rows) (extract_etdrs_vd rows)⟩

/-- The inner update loop of `main` (angio.py:251–256): every non-`None`
cell of the candidate row overwrites the accumulated cell. -/
def applyRowCells : List (String × Option String) → List (String × Option String) →
    List (String × Option String)
  | b, [] => b
  | b, p :: rest =>
    match p.2 with
    | some w => applyRowCells (dset b p.1 (some w)) rest
    | none => applyRowCells b rest

/-- One step of the per-ID merge of `main` (angio.py:244–256): a first
occurrence of an identifier starts from the all-`None` row, later
occurrences update the accumulated row. -/
def mergeStep (m : List (String × List (String × Option String))) (row : PRow) :
    List (String × List (String × Option String)) :=
  match dget m row.id with
  | none => dset m row.id (applyRowCells blankCells row.cells)
  | some cur => dset m row.id (applyRowCells cur row.cells)

/-- The whole per-ID merge of `main` over the per-file rows, in the
directory's sorted file order. -/
def merge_rows (rows : List PRow) :
    List (String × List (String × Option String)) :=
  rows.foldl mergeStep []

end Angio

/-! ### `src/oct/oct.py` — presence-mode resolver and thickness extractor -/

/-- Python `s.endswith(p)`. -/
def pyEndsWith (s p : String) : Bool :=
  List.isSuffixOf p.toList s.toList

namespace Oct

/-- The scan of `detect_eye_presence` (oct.py:110–130) over the rows after
the `Eye` header: a blank row or a `<`-tagged row ends the scan; a row
whose stripped, upper-cased first cell starts with `R` (resp. `L`) marks
that side seen and continues; any other row ends the scan. -/
def scanPresence : List (List String) → Bool → Bool → Bool × Bool
  | [], has_r, has_l => (has_r, has_l)
  | row :: rest, has_r, has_l =>
    if isBlankRow row then (has_r, has_l)
    else if pyStartsWith (pyStrip (row.headD "")) "<" then (has_r, has_l)
    else if pyStartsWith (pyUpper (pyStrip (row.headD ""))) "R" then
      scanPresence rest true has_l
    else if pyStartsWith (pyUpper (pyStrip (row.headD ""))) "L" then
      scanPresence rest has_r true
    else (has_r, has_l)

/-- `detect_eye_presence` (oct.py:88). -/
def detect_eye_presence (rows : List (List String)) : Bool × Bool :=
  match find_eye_idx rows with
  | none => (false, false)
  | some i => scanPresence (rows.drop (i + 1)) false false

/-- `<ETDRS>` tag (oct.py:62). -/
def ETDRS_TAG : String := "<ETDRS>"

/-- The tag-row search of `find_etdrs_table` (oct.py:136–139). -/
def find_etdrs_idx : List (List String) → Option Nat
  | [] => none
  | r :: rest =>
    if (match r with
        | [] => false
        | c :: _ => pyStrip c = ETDRS_TAG) then some 0
    else (find_etdrs_idx rest).map (· + 1)

/-- `next((i for i, h in enumerate(header_row) if h.strip().endswith(X)), None)`
(oct.py:144–145). -/
def firstIdxEndsWith : List String → String → Option Nat
  | [], _ => none
  | h :: rest, suf =>
    if pyEndsWith (pyStrip h) suf then some 0
    else (firstIdxEndsWith rest suf).map (· + 1)

/-- Python's `x or -1` on an optional column index (oct.py:146): both
`None` and the falsy index `0` collapse to `-1`. -/
def pyOrNegOne (x : Option Nat) : Int :=
  match x with
  | some n => if n = 0 then -1 else (n : Int)
  | none => -1

/-- Python `row[c]` under the guard `c < len(row)` (oct.py:166–167): a
non-negative index reads normally, `-1` reads the last cell (Python
negative indexing); indices below `-len(row)` would raise in Python and
cannot arise here (the only negative index produced is `-1`). -/
def pyGetAt (row : List String) (i : Int) : String :=
  if 0 ≤ i then row.getD i.toNat ""
  else row.getD (row.length - (-i).toNat) ""

/-- `safe_float(row[c]) if c < len(row) else None` (oct.py:166–167). -/
def colVal (row : List String) (c : Int) : Option String :=
  if c < (row.length : Int) then safe_float (pyGetAt row c) else none

/-- The scan of `extract_etdrs` (oct.py:156–169): stop at the empty row or
a `<`-tagged row, skip the literal `Size` label row, and for each known
sector record the pair of parses at the R- and L-column indices (a later
occurrence overwrites an earlier one). -/
def thScan : List (List String) → Int → Int →
    List (String × (Option String × Option String)) →
    List (String × (Option String × Option String))
  | [], _, _, res => res
  | row :: rest, rc, lc, res =>
    if row = ([] : List String) then res
    else if pyStartsWith (pyStrip (row.headD "")) "<" then res
    else if pyStrip (row.headD "") = "Size" then thScan rest rc lc res
    else if (dget res (pyStrip (row.headD ""))).isSome then
      thScan rest rc lc
        (dset res (pyStrip (row.headD "")) (colVal row rc, colVal row lc))
    else thScan rest rc lc res

/-- `extract_etdrs` (oct.py:149): all sectors start `(None, None)`. -/
def extract_etdrs (rows : List (List String)) :
    List (String × (Option String × Option String)) :=
  match find_etdrs_idx rows with
  | none => SECTORS.map fun s => (s, (none, none))
  | some idx =>
    thScan (rows.drop (idx + 2))
      (pyOrNegOne (firstIdxEndsWith (rows.getD (idx + 1) []) "R"))
      (pyOrNegOne (firstIdxEndsWith (rows.getD (idx + 1) []) "L"))
      (SECTORS.map fun s => (s, (none, none)))

/-- Output columns (oct.py:54). -/
def OUTPUT_COLUMNS : List String :=
  ["ID",
   "R-Center", "R-Inner_Temporal", "R-Inner_Superior", "R-Inner_Nasal",
   "R-Inner_Inferior", "R-Outer_Temporal", "R-Outer_Superior",
   "R-Outer_Nasal", "R-Outer_Inferior",
   "L-Center", "L-Inner_Temporal", "L-Inner_Superior", "L-Inner_Nasal",
   "L-Inner_Inferior", "L-Outer_Temporal", "L-Outer_Superior",
   "L-Outer_Nasal", "L-Outer_Inferior"]

/-- The side-prefixed columns: every output column except `ID`. -/
def SIDE_COLUMNS : List String := OUTPUT_COLUMNS.drop 1

/-- The all-missing cell dict (minus `ID`, carried separately). -/
def blankCells : List (String × Option String) :=
  SIDE_COLUMNS.map fun c => (c, none)

/-- The cell-filling loop of `process_file` (oct.py:186–192): each sector's
R-cell gets its extracted R-value only when the right side is present, and
likewise for L; an absent side leaves `None`. -/
def process_cells (has_r has_l : Bool)
    (etdrs : List (String × (Option String × Option String))) :
    List (String × Option String) :=
  SECTORS.foldl (fun out sec =>
    dset
      (dset out ("R-" ++ underscore sec)
        (if has_r then ((dget etdrs sec).getD (none, none)).1 else none))
      ("L-" ++ underscore sec)
      (if has_l then ((dget etdrs sec).getD (none, none)).2 else none))
    blankCells

/-- `process_file` (oct.py:178), minus I/O: the side-prefixed cells of the
output row for one report. -/
def process_rows (rows : List (List String)) : List (String × Option String) :=
  process_cells (detect_eye_presence rows).1 (detect_eye_presence rows).2
    (extract_etdrs rows)

end Oct

/-! ### `src/oct/noise_mask.py` — the Noise Mask Applier -/

namespace Noise

/-- `TARGETS` (noise_mask.py:40–44), in Python dict insertion order: per
eye, each of the four quadrants maps to its `Inner_`/`Outer_` fine-sector
pair, and `Center` maps to itself. -/
def TARGETS : List (String × List String) :=
  [("L-Superior", ["L-Inner_Superior", "L-Outer_Superior"]),
   ("L-Inferior", ["L-Inner_Inferior", "L-Outer_Inferior"]),
   ("L-Nasal", ["L-Inner_Nasal", "L-Outer_Nasal"]),
   ("L-Temporal", ["L-Inner_Temporal", "L-Outer_Temporal"]),
   ("L-Center", ["L-Center"]),
   ("R-Superior", ["R-Inner_Superior", "R-Outer_Superior"]),
   ("R-Inferior", ["R-Inner_Inferior", "R-Outer_Inferior"]),
   ("R-Nasal", ["R-Inner_Nasal", "R-Outer_Nasal"]),
   ("R-Temporal", ["R-Inner_Temporal", "R-Outer_Temporal"]),
   ("R-Center", ["R-Center"])]

/-- `is_noise` (noise_mask.py:78): the stripped value equals `"1"` or its
full-width equivalent. -/
def is_noise (val : String) : Bool :=
  pyStrip val = "1" || pyStrip val = "１"

/-- The stripped `ID` cell of a row dict. -/
def rowId (r : List (String × String)) : String :=
  pyStrip ((dget r "ID").getD "")

/-- The inner loop of `apply_noise_mask` (noise_mask.py:97–100): clear (set
to `""`) each listed target column that exists in the row and is
non-empty, counting each cell actually cleared. -/
def clearTargets : List (String × String) → List String →
    List (String × String) × Nat
  | r, [] => (r, 0)
  | r, col :: rest =>
    match dget r col with
    | some v =>
      if ¬(v = "") then
        ((clearTargets (dset r col "") rest).1,
         (clearTargets (dset r col "") rest).2 + 1)
      else clearTargets r rest
    | none => clearTargets r rest

/-- The `TARGETS` loop of `apply_noise_mask` (noise_mask.py:95–100): for
each quadrant key present in the noise row with a flag value, clear its
target columns, accumulating the cleared-cell count. -/
def applyTargets : List (String × String) → List (String × String) →
    List (String × List String) → List (String × String) × Nat
  | r, _, [] => (r, 0)
  | r, n, kt :: rest =>
    if (match dget n kt.1 with
        | some v => is_noise v
        | none => false) then
      ((applyTargets (clearTargets r kt.2).1 n rest).1,
       (clearTargets r kt.2).2 + (applyTargets (clearTargets r kt.2).1 n rest).2)
    else applyTargets r n rest

/-- Application of one noise row to one target row. -/
def applyNoiseRowTo (r n : List (String × String)) :
    List (String × String) × Nat :=
  applyTargets r n TARGETS

/-- Whether some row of the list has the given stripped identifier. -/
def hasRowId (rows : List (List (String × String))) (pid : String) : Bool :=
  rows.any fun r => rowId r = pid

/-- Update the *last* row carrying the given identifier (the row aliased
by `by_id`, which keeps the last row per key), returning the transformed
list and the count reported by the update. -/
def updateLastWithId :
    List (List (String × String)) → String →
    (List (String × String) → List (String × String) × Nat) →
    List (List (String × String)) × Nat
  | [], _, _ => ([], 0)
  | r :: rest, pid, f =>
    if hasRowId rest pid then
      (r :: (updateLastWithId rest pid f).1, (updateLastWithId rest pid f).2)
    else if rowId r = pid then ((f r).1 :: rest, (f r).2)
    else (r :: rest, 0)

/-- One iteration of the outer loop of `apply_noise_mask`
(noise_mask.py:86–100): skip blank identifiers and identifiers absent from
the target table; otherwise mutate the (unique/last) matching target row
in place. -/
def noiseStep (m : List (List (String × String))) (n : List (String × String)) :
    List (List (String × String)) × Nat :=
  if rowId n = "" then (m, 0)
  else if hasRowId m (rowId n) then updateLastWithId m (rowId n) (applyNoiseRowTo · n)
  else (m, 0)

/-- `apply_noise_mask` (noise_mask.py:83): fold all noise rows over the
target table; the returned list is the post-state of the (mutated-in-place)
`merged_rows` argument, the returned number the masked-cell count. -/
def apply_noise_mask (merged noise : List (List (String × String))) :
    List (List (String × String)) × Nat :=
  noise.foldl (fun acc n => ((noiseStep acc.1 n).1, acc.2 + (noiseStep acc.1 n).2))
    (merged, 0)

/-- Whether column `col` is a fine-sector target of some quadrant flagged
in noise row `n` (the claim-side description of which cells get cleared). -/
def isFlaggedTarget (n : List (String × String)) (col : String) : Bool :=
  TARGETS.any fun kt =>
    (match dget n kt.1 with
     | some v => is_noise v
     | none => false) && kt.2.contains col

end Noise

/-! ### `src/age/age_data.py` — the Identifier Canonicalizer -/

namespace Age

/-- Outcome of the module-level ID-classification ladder
(age_data.py:98–122): `valid c` appends the score under canonical id `c`;
`strippedSuffix c orig` records `orig` for audit and computes under `c`;
`invalid raw` is excluded from calculation and reported. -/
inductive IdClass where
  | valid (canonical : String)
  | strippedSuffix (canonical : String) (original : String)
  | invalid (raw : String)
deriving DecidableEq

/-- `re.fullmatch(r"\d{4}", s)`: exactly four decimal digits. -/
def digits4 (s : String) : Bool :=
  s.toList.length = 4 && s.toList.all isPyDigit

/-- `re.fullmatch(r"EG\d{4}", s)`: the literal `EG` followed by exactly
four digits. -/
def fullmatch_EG4 (s : String) : Bool :=
  s.toList.take 2 = ['E', 'G'] && (s.toList.drop 2).length = 4
    && (s.toList.drop 2).all isPyDigit

/-- A character list matching `[1-9]\d*` (a positive integer with no
leading zero — the ASCII class `[1-9]` followed by digits). -/
def posIntShapedL (l : List Char) : Bool :=
  match l with
  | c :: tail => ('1' ≤ c && c ≤ '9') && tail.all isPyDigit
  | [] => false

/-- A string matching `[1-9]\d*`. -/
def posIntShaped (s : String) : Bool :=
  posIntShapedL s.toList

/-- `re.fullmatch(r"EG\d{4}-(?:[1-9]\d*)", s)`: `EG`, four digits, a dash,
then a positive-integer suffix. -/
def fullmatch_EG4_suffixed (s : String) : Bool :=
  s.toList.take 2 = ['E', 'G']
    && ((s.toList.drop 2).take 4).length = 4
    && ((s.toList.drop 2).take 4).all isPyDigit
    && ((s.toList.drop 2).drop 4).take 1 = ['-']
    && posIntShapedL ((s.toList.drop 2).drop 5)

/-- The numeric value of a digit string (`int(raw_id)` on `\d{4}`). -/
def pyDigitVal (c : Char) : Nat :=
  if c.isDigit then c.toNat - 48 else c.toNat - 0xFF10

/-- `int(...)` over a digit-only string. -/
def pyNatOfDigits (s : String) : Nat :=
  s.toList.foldl (fun a c => 10 * a + pyDigitVal c) 0

/-- `raw_id.split("-")[0]`. -/
def beforeDash (s : String) : String :=
  String.mk (s.toList.takeWhile fun c => ¬(c = '-'))

/-- The ID-classification ladder of age_data.py:98–122, applied to an
already-stripped raw identifier, in source order: bare four digits with
value at most 3171 gain the `EG` canonical form (above 3171 → invalid);
then `EG`+4 digits+`-`+positive integer strips the suffix; then exact
`EG`+4 digits passes through; anything else is invalid. -/
def classify_id (raw : String) : IdClass :=
  if digits4 raw then
    if pyNatOfDigits raw ≤ 3171 then .valid ("EG" ++ raw)
    else .invalid raw
  else if fullmatch_EG4_suffixed raw then .strippedSuffix (beforeDash raw) raw
  else if fullmatch_EG4 raw then .valid raw
  else .invalid raw

/-- The canonical identifier actually used for calculation, when the raw
identifier is accepted at all. -/
def canonical_of : IdClass → Option String
  | .valid c => some c
  | .strippedSuffix c _ => some c
  | .invalid _ => none

end Age

theorem toList_append (a b : String) : (a ++ b).toList = a.toList ++ b.toList := by
  cases a with
  | mk la => cases b with
    | mk lb => rfl

theorem digit_ne_dash (c : Char) (h : isPyDigit c = true) : ¬(c = '-') := by
  intro hc
  subst hc
  simp [isPyDigit] at h

theorem takeWhile_append_stop (p : Char → Bool) (l₁ l₂ : List Char) (c : Char)
    (h₁ : ∀ x ∈ l₁, p x = true) (hc : p c = false) :
    (l₁ ++ c :: l₂).takeWhile p = l₁ := by
  induction l₁ with
  | nil => simp [List.takeWhile, hc]
  | cons x rest ih =>
    have hx : p x = true := h₁ x (List.mem_cons_self x rest)
    simp only [List.cons_append, List.takeWhile_cons, hx, if_true]
    rw [ih fun y hy => h₁ y (List.mem_cons_of_mem x hy)]

namespace Age

theorem classify_digits_le (raw : String) (h1 : digits4 raw = true)
    (h2 : pyNatOfDigits raw ≤ 3171) :
    classify_id raw = .valid ("EG" ++ raw) := by
  simp [classify_id, h1, h2]

theorem classify_digits_gt (raw : String) (h1 : digits4 raw = true)
    (h2 : 3171 < pyNatOfDigits raw) :
    classify_id raw = .invalid raw := by
  simp [classify_id, h1, Nat.not_le.mpr h2]

theorem EG4_length (raw : String) (h : fullmatch_EG4 raw = true) :
    raw.toList.length = 6 := by
  simp only [fullmatch_EG4, Bool.and_eq_true, decide_eq_true_eq] at h
  obtain ⟨⟨ht, hlen⟩, _⟩ := h
  have hlt : (raw.toList.take 2).length = 2 := by rw [ht]; rfl
  have hsum : raw.toList.length
      = (raw.toList.take 2).length + (raw.toList.drop 2).length := by
    conv_lhs => rw [← List.take_append_drop 2 raw.toList]
    rw [List.length_append]
  omega

theorem EG4_not_digits4 (raw : String) (h : fullmatch_EG4 raw = true) :
    digits4 raw = false := by
  unfold digits4
  rw [EG4_length raw h]
  rfl

theorem EG4_not_suffixed (raw : String) (h : fullmatch_EG4 raw = true) :
    fullmatch_EG4_suffixed raw = false := by
  have hdrop7 : raw.toList.drop 7 = [] := by
    apply List.drop_eq_nil_of_le
    rw [EG4_length raw h]
    omega
  have h25 : List.drop 5 (List.drop 2 raw.toList) = [] := by
    rw [List.drop_drop]
    exact hdrop7
  unfold fullmatch_EG4_suffixed
  rw [h25]
  simp [posIntShapedL]

theorem classify_EG4 (raw : String) (h : fullmatch_EG4 raw = true) :
    classify_id raw = .valid raw := by
  simp [classify_id, EG4_not_digits4 raw h, EG4_not_suffixed raw h, h]

theorem classify_other (raw : String) (h1 : digits4 raw = false)
    (h2 : fullmatch_EG4_suffixed raw = false) (h3 : fullmatch_EG4 raw = false) :
    classify_id raw = .invalid raw := by
  simp [classify_id, h1, h2, h3]

theorem EG4_of_EG_append (lp : List Char) (hlen : lp.length = 4)
    (hdig : lp.all isPyDigit = true) :
    fullmatch_EG4 ("EG" ++ String.mk lp) = true := by
  have ht : ("EG" ++ String.mk lp).toList = 'E' :: 'G' :: lp := by
    rw [toList_append]
    rfl
  simp [fullmatch_EG4, ht, hlen, hdig]

end Age

namespace Age

theorem concat_toList (lp ls : List Char) :
    ("EG" ++ String.mk lp ++ "-" ++ String.mk ls).toList
      = 'E' :: 'G' :: (lp ++ '-' :: ls) := by
  rw [toList_append, toList_append, toList_append]
  simp [List.append_assoc]

theorem concat_not_digits4 (lp ls : List Char) (hlen : lp.length = 4) :
    digits4 ("EG" ++ String.mk lp ++ "-" ++ String.mk ls) = false := by
  unfold digits4
  rw [concat_toList]
  have hne : ¬(('E' :: 'G' :: (lp ++ '-' :: ls)).length = 4) := by
    simp only [List.length_cons, List.length_append, hlen]
    omega
  rw [decide_eq_false hne]
  rfl

theorem concat_suffixed (lp ls : List Char) (hlen : lp.length = 4)
    (hdig : lp.all isPyDigit = true) (hsuf : posIntShapedL ls = true) :
    fullmatch_EG4_suffixed ("EG" ++ String.mk lp ++ "-" ++ String.mk ls) = true := by
  unfold fullmatch_EG4_suffixed
  rw [concat_toList]
  have hd2 : ('E' :: 'G' :: (lp ++ '-' :: ls)).drop 2 = lp ++ '-' :: ls := rfl
  have ht4 : (lp ++ '-' :: ls).take 4 = lp := List.take_left' hlen
  have hd4 : (lp ++ '-' :: ls).drop 4 = '-' :: ls := List.drop_left' hlen
  have hd5 : (lp ++ '-' :: ls).drop 5 = ls := by
    have h1 : List.drop 1 (List.drop 4 (lp ++ '-' :: ls)) = (lp ++ '-' :: ls).drop 5 :=
      List.drop_drop 1 4 _
    rw [← h1, hd4]
    rfl
  rw [hd2, ht4, hd4, hd5]
  simp [hlen, hdig, hsuf]

theorem concat_beforeDash (lp ls : List Char) (hdig : lp.all isPyDigit = true) :
    beforeDash ("EG" ++ String.mk lp ++ "-" ++ String.mk ls)
      = "EG" ++ String.mk lp := by
  unfold beforeDash
  rw [concat_toList]
  have hsplit : 'E' :: 'G' :: (lp ++ '-' :: ls) = ('E' :: 'G' :: lp) ++ '-' :: ls := by
    simp
  rw [hsplit, takeWhile_append_stop _ _ _ _ ?h1 (by decide)]
  · rfl
  case h1 =>
    intro x hx
    rcases List.mem_cons.mp hx with h | h
    · subst h; decide
    rcases List.mem_cons.mp h with h | h
    · subst h; decide
    · have := (List.all_eq_true.mp hdig) x h
      simp only [decide_eq_true_eq]
      exact digit_ne_dash x (by simpa using this)

end Age

namespace Age

theorem suffixed_decomp (s : String) (h : fullmatch_EG4_suffixed s = true) :
    s.toList = ('E' :: 'G' :: (s.toList.drop 2).take 4)
      ++ '-' :: (s.toList.drop 2).drop 5 := by
  simp only [fullmatch_EG4_suffixed, Bool.and_eq_true, decide_eq_true_eq] at h
  obtain ⟨⟨⟨⟨ht2, _⟩, _⟩, hdash⟩, _⟩ := h
  have e1 : s.toList = s.toList.take 2 ++ s.toList.drop 2 :=
    (List.take_append_drop 2 _).symm
  have e2 : s.toList.drop 2
      = (s.toList.drop 2).take 4 ++ (s.toList.drop 2).drop 4 :=
    (List.take_append_drop 4 _).symm
  have e3 : (s.toList.drop 2).drop 4
      = ((s.toList.drop 2).drop 4).take 1 ++ ((s.toList.drop 2).drop 4).drop 1 :=
    (List.take_append_drop 1 _).symm
  have e4 : ((s.toList.drop 2).drop 4).drop 1 = (s.toList.drop 2).drop 5 :=
    List.drop_drop 1 4 _
  conv_lhs => rw [e1, ht2, e2, e3, hdash, e4]
  simp [List.append_assoc]

theorem beforeDash_EG4 (s : String) (h : fullmatch_EG4_suffixed s = true) :
    fullmatch_EG4 (beforeDash s) = true := by
  have hfacts := h
  simp only [fullmatch_EG4_suffixed, Bool.and_eq_true, decide_eq_true_eq] at hfacts
  obtain ⟨⟨⟨⟨_, hlen4⟩, hdig4⟩, _⟩, _⟩ := hfacts
  have hd := suffixed_decomp s h
  have htw : s.toList.takeWhile (fun c => decide ¬(c = '-'))
      = 'E' :: 'G' :: (s.toList.drop 2).take 4 := by
    conv_lhs => rw [hd]
    exact takeWhile_append_stop _ _ _ _
      (by
        intro x hx
        rcases List.mem_cons.mp hx with h1 | h1
        · subst h1; decide
        rcases List.mem_cons.mp h1 with h1 | h1
        · subst h1; decide
        · have hx2 := (List.all_eq_true.mp hdig4) x h1
          simp only [decide_eq_true_eq]
          exact digit_ne_dash x (by simpa using hx2))
      (by decide)
  unfold beforeDash fullmatch_EG4
  rw [show (String.mk (s.toList.takeWhile fun c => ¬(c = '-'))).toList
      = s.toList.takeWhile (fun c => decide ¬(c = '-')) from rfl, htw]
  simp only [List.take_succ_cons, List.take_zero, List.drop_succ_cons,
    List.drop_zero, decide_eq_true_eq, Bool.and_eq_true]
  exact ⟨⟨trivial, hlen4⟩, hdig4⟩

end Age

/-- **C4** — Identifier Canonicalizer classification, in ladder order:
four bare digits valued at most 3171 → `EG`+digits, included; four bare
digits above 3171 → invalid; `EG`+4 digits+`-`+positive-integer suffix →
the portion before the dash for calculation, the original kept for audit;
`EG`+exactly 4 digits → used as-is; anything else → invalid. -/
theorem c4_identifier_canonicalizer :
    (∀ raw, Age.digits4 raw = true → Age.pyNatOfDigits raw ≤ 3171 →
      Age.classify_id raw = Age.IdClass.valid ("EG" ++ raw)) ∧
    (∀ raw, Age.digits4 raw = true → 3171 < Age.pyNatOfDigits raw →
      Age.classify_id raw = Age.IdClass.invalid raw) ∧
    (∀ pre suf, Age.digits4 pre = true → Age.posIntShaped suf = true →
      Age.classify_id ("EG" ++ pre ++ "-" ++ suf)
        = Age.IdClass.strippedSuffix ("EG" ++ pre) ("EG" ++ pre ++ "-" ++ suf)) ∧
    (∀ raw, Age.fullmatch_EG4 raw = true →
      Age.classify_id raw = Age.IdClass.valid raw) ∧
    (∀ raw, Age.digits4 raw = false → Age.fullmatch_EG4_suffixed raw = false →
      Age.fullmatch_EG4 raw = false →
      Age.classify_id raw = Age.IdClass.invalid raw) := by
  refine ⟨Age.classify_digits_le, Age.classify_digits_gt, ?_, Age.classify_EG4,
    Age.classify_other⟩
  intro pre suf h1 h2
  obtain ⟨lp⟩ := pre
  obtain ⟨ls⟩ := suf
  simp only [Age.digits4, Bool.and_eq_true, decide_eq_true_eq] at h1
  obtain ⟨hlen, hdig⟩ := h1
  have hsuf : Age.posIntShapedL ls = true := h2
  unfold Age.classify_id
  rw [Age.concat_not_digits4 lp ls hlen,
    Age.concat_suffixed lp ls hlen hdig hsuf,
    Age.concat_beforeDash lp ls hdig]
  simp

/-- Witness for C4 at the spec's scenario inputs: `"0001"` → `EG0001`
included; `"9999"` → invalid; `"EG0002-1"` → canonical `EG0002` with the
original kept; `"EG1111"` → as-is; `"A12"` → invalid. -/
theorem c4_witness :
    Age.classify_id "0001" = Age.IdClass.valid "EG0001" ∧
    Age.classify_id "9999" = Age.IdClass.invalid "9999" ∧
    Age.classify_id "EG0002-1" = Age.IdClass.strippedSuffix "EG0002" "EG0002-1" ∧
    Age.classify_id "EG1111" = Age.IdClass.valid "EG1111" ∧
    Age.classify_id "A12" = Age.IdClass.invalid "A12" := by
  have h := c4_identifier_canonicalizer
  refine ⟨h.1 "0001" (by decide) (by decide),
    h.2.1 "9999" (by decide) (by decide), ?_,
    h.2.2.2.1 "EG1111" (by decide),
    h.2.2.2.2 "A12" (by decide) (by decide) (by decide)⟩
  have h3 := h.2.2.1 "0002" "1" (by decide) (by decide)
  exact h3

/-- **C8** — canonicalization is idempotent: a string already of the
canonical `EG`+4-digit shape is classified as valid unchanged, and the
canonical output of any successful classification is itself classified as
valid unchanged. -/
theorem c8_canonicalization_idempotent :
    (∀ s, Age.fullmatch_EG4 s = true →
      Age.canonical_of (Age.classify_id s) = some s) ∧
    (∀ s c, Age.canonical_of (Age.classify_id s) = some c →
      Age.canonical_of (Age.classify_id c) = some c) := by
  constructor
  · intro s h
    rw [Age.classify_EG4 s h]
    rfl
  · intro s c h
    by_cases hd : Age.digits4 s = true
    · by_cases hle : Age.pyNatOfDigits s ≤ 3171
      · rw [Age.classify_digits_le s hd hle] at h
        simp only [Age.canonical_of, Option.some.injEq] at h
        subst h
        obtain ⟨l⟩ := s
        simp only [Age.digits4, Bool.and_eq_true, decide_eq_true_eq] at hd
        rw [Age.classify_EG4 _ (Age.EG4_of_EG_append l hd.1 hd.2)]
        rfl
      · rw [Age.classify_digits_gt s hd (Nat.lt_of_not_le hle)] at h
        simp [Age.canonical_of] at h
    · rw [Bool.not_eq_true] at hd
      by_cases hsuf : Age.fullmatch_EG4_suffixed s = true
      · have hcl : Age.classify_id s
            = Age.IdClass.strippedSuffix (Age.beforeDash s) s := by
          unfold Age.classify_id
          rw [hd, hsuf]
          simp
        rw [hcl] at h
        simp only [Age.canonical_of, Option.some.injEq] at h
        subst h
        rw [Age.classify_EG4 _ (Age.beforeDash_EG4 s hsuf)]
        rfl
      · rw [Bool.not_eq_true] at hsuf
        by_cases hEG : Age.fullmatch_EG4 s = true
        · rw [Age.classify_EG4 s hEG] at h
          simp only [Age.canonical_of, Option.some.injEq] at h
          subst h
          rw [Age.classify_EG4 s hEG]
          rfl
        · rw [Bool.not_eq_true] at hEG
          rw [Age.classify_other s hd hsuf hEG] at h
          simp [Age.canonical_of] at h

/-- Witness for C8: `EG1234` is already canonical and survives
re-classification; `EG0002-1` canonicalizes to `EG0002`, which
re-canonicalizes to itself. -/
theorem c8_witness :
    Age.canonical_of (Age.classify_id "EG1234") = some "EG1234" ∧
    Age.canonical_of (Age.classify_id "EG0002") = some "EG0002" := by
  exact ⟨c8_canonicalization_idempotent.1 "EG1234" (by decide),
    c8_canonicalization_idempotent.2 "EG0002-1" "EG0002" (by decide)⟩

/-! ### C9 — identifier from filename -/

theorem searchEG_first (cs : List Char) :
    ∀ i m, (∀ j, j < i → matchEGAt (cs.drop j) = none) →
      matchEGAt (cs.drop i) = some m → searchEG cs = some m := by
  induction cs with
  | nil =>
    intro i m _ hm
    simp [List.drop_nil] at hm
    simp [matchEGAt] at hm
  | cons c rest ih =>
    intro i m hnone hm
    match i with
    | 0 =>
      simp only [List.drop_zero] at hm
      simp [searchEG, hm]
    | i' + 1 =>
      have h0 : matchEGAt (c :: rest) = none := by
        have := hnone 0 (Nat.succ_pos i')
        simpa using this
      simp only [searchEG, h0]
      exact ih i' m
        (fun j hj => by
          have := hnone (j + 1) (Nat.succ_lt_succ hj)
          simpa using this)
        (by simpa using hm)

theorem searchEG_none (cs : List Char) (h : ∀ i, matchEGAt (cs.drop i) = none) :
    searchEG cs = none := by
  induction cs with
  | nil => rfl
  | cons c rest ih =>
    have h0 : matchEGAt (c :: rest) = none := by simpa using h 0
    simp only [searchEG, h0]
    exact ih fun i => by simpa using h (i + 1)

/-- **C9** — subject identifier from the filename.  If the filename
contains a substring matching `EG`+4 digits, the identifier is the first
(leftmost) such match; otherwise it is the filename's first six
characters, taken without any validation. -/
theorem c9_id_from_filename (name : String) :
    (∀ i m, (∀ j, j < i → matchEGAt (name.toList.drop j) = none) →
      matchEGAt (name.toList.drop i) = some m →
      get_id_from_filename name = m) ∧
    ((∀ i, i < name.toList.length → matchEGAt (name.toList.drop i) = none) →
      get_id_from_filename name = String.mk (name.toList.take 6)) := by
  constructor
  · intro i m hnone hm
    unfold get_id_from_filename
    rw [searchEG_first name.toList i m hnone hm]
    rfl
  · intro h
    unfold get_id_from_filename
    rw [searchEG_none name.toList ?hall]
    · rfl
    case hall =>
      intro i
      by_cases hi : i < name.toList.length
      · exact h i hi
      · rw [List.drop_eq_nil_of_le (Nat.le_of_not_lt hi)]
        rfl

/-- Witness for C9: `xxEG0123_EG9999.csv` yields the leftmost match
`EG0123`; `abcdefg.csv` has no match and yields its first six characters
`abcdef` (no validation). -/
theorem c9_witness :
    get_id_from_filename "xxEG0123_EG9999.csv" = "EG0123" ∧
    get_id_from_filename "abcdefg.csv" = "abcdef" := by
  constructor
  · exact (c9_id_from_filename "xxEG0123_EG9999.csv").1 2 "EG0123"
      (by decide) (by decide)
  · have h := (c9_id_from_filename "abcdefg.csv").2 (by decide)
    rw [h]
    rfl

/-! ### C6 — reports with no Eye section -/

theorem find_eye_idx_none (rows : List (List String))
    (h : ∀ r ∈ rows, isEyeHeaderRow r = false) : find_eye_idx rows = none := by
  induction rows with
  | nil => rfl
  | cons r rest ih =>
    have h0 : isEyeHeaderRow r = false := h r (List.mem_cons_self r rest)
    simp only [find_eye_idx, h0, if_false, Bool.false_eq_true]
    rw [ih fun x hx => h x (List.mem_cons_of_mem r hx)]
    rfl

set_option maxHeartbeats 1600000 in
/-- **C6** — for a report none of whose rows is an `Eye` section header
(neither an exact stripped first-cell `"Eye"` nor a joined line starting
with the known header line), the single-verdict resolver reports no side,
the presence-mode resolver reports `(false, false)`, and both per-file
output rows leave every side-prefixed sector column missing. -/
theorem c6_no_eye_header (rows : List (List String)) (id : String)
    (h : ∀ r ∈ rows, isEyeHeaderRow r = false) :
    Angio.detect_eye_side rows = none ∧
    Oct.detect_eye_presence rows = (false, false) ∧
    (∀ col ∈ Angio.SIDE_COLUMNS,
      dget (Angio.process_rows rows id).cells col = some none) ∧
    (∀ col ∈ Oct.SIDE_COLUMNS,
      dget (Oct.process_rows rows) col = some none) := by
  have hf : find_eye_idx rows = none := find_eye_idx_none rows h
  have h1 : Angio.detect_eye_side rows = none := by
    unfold Angio.detect_eye_side
    rw [hf]
  have h2 : Oct.detect_eye_presence rows = (false, false) := by
    unfold Oct.detect_eye_presence
    rw [hf]
  refine ⟨h1, h2, ?_, ?_⟩
  · intro col hc
    show dget (Angio.process_cells (Angio.detect_eye_side rows)
      (Angio.extract_etdrs_vd rows)) col = some none
    rw [h1]
    have hbc : Angio.process_cells none (Angio.extract_etdrs_vd rows)
        = Angio.blankCells := rfl
    rw [hbc]
    unfold Angio.blankCells
    exact dget_map_self _ _ col hc
  · intro col hc
    show dget (Oct.process_cells (Oct.detect_eye_presence rows).1
      (Oct.detect_eye_presence rows).2 (Oct.extract_etdrs rows)) col = some none
    rw [h2]
    have hbc : Oct.process_cells (false, false).1 (false, false).2
        (Oct.extract_etdrs rows) = Oct.blankCells := rfl
    rw [hbc]
    unfold Oct.blankCells
    exact dget_map_self _ _ col hc

/-- Witness for C6 on a small report with no `Eye` header. -/
theorem c6_witness :
    Angio.detect_eye_side [["foo", "bar"], ["R", "1"]] = none ∧
    Oct.detect_eye_presence [["foo", "bar"], ["R", "1"]] = (false, false) ∧
    dget (Angio.process_rows [["foo", "bar"], ["R", "1"]] "EG0001").cells
      "R_Center" = some none ∧
    dget (Oct.process_rows [["foo", "bar"], ["R", "1"]]) "L-Center"
      = some none := by
  have h := c6_no_eye_header [["foo", "bar"], ["R", "1"]] "EG0001" (by decide)
  exact ⟨h.1, h.2.1, h.2.2.1 "R_Center" (by decide), h.2.2.2 "L-Center" (by decide)⟩

/-! ### C7 — blank-row handling in the two Eye-Side Resolver variants -/

/-- Counterexample to C7: in the single-verdict variant a fully blank row
does **not** halt the scan — it is skipped (`continue`), so the `R` row
after the blank row still decides the verdict (without it the verdict
would be `none`). -/
theorem c7_counterexample :
    Angio.detect_eye_side [["Eye"], [""], ["R"]] = some "R" ∧
    Angio.detect_eye_side [["Eye"], [""]] = none := by
  constructor <;> rfl

/-- **C7 (amended)** — only the presence-mode variant halts at a fully
blank row: rows after the first blank row never contribute to the
seen-side flags.  The single-verdict variant instead *skips* blank rows
and keeps scanning. -/
theorem c7_amended_blank_row_halting :
    (∀ (pre post : List (List String)) (b : List String) (hr hl : Bool),
      isBlankRow b = true →
      Oct.scanPresence (pre ++ b :: post) hr hl
        = Oct.scanPresence (pre ++ [b]) hr hl) ∧
    (∀ (rest : List (List String)) (b : List String),
      isBlankRow b = true →
      Angio.scanSide (b :: rest) = Angio.scanSide rest) := by
  constructor
  · intro pre post b hr hl hb
    induction pre generalizing hr hl with
    | nil =>
      simp [Oct.scanPresence, hb]
    | cons r pre' ih =>
      simp only [List.cons_append, Oct.scanPresence]
      split_ifs <;> first | rfl | apply ih
  · intro rest b hb
    simp [Angio.scanSide, hb]

/-- Witness for the amended C7 at concrete rows. -/
theorem c7_amended_witness :
    Oct.scanPresence ([["R"]] ++ [""] :: [["L"]]) false false
      = Oct.scanPresence ([["R"]] ++ [[""]]) false false ∧
    Angio.scanSide ([""] :: [["R"]]) = Angio.scanSide [["R"]] := by
  exact ⟨c7_amended_blank_row_halting.1 [["R"]] [["L"]] [""] false false (by decide),
    c7_amended_blank_row_halting.2 [["R"]] [""] (by decide)⟩

/-! ### C10 — presence-mode halting at the first unrecognized row -/

theorem scanPresence_fst_false (l : List (List String)) (hl : Bool)
    (h : ∀ r ∈ l, pyStartsWith (pyUpper (pyStrip (r.headD ""))) "R" = false) :
    (Oct.scanPresence l false hl).1 = false := by
  induction l generalizing hl with
  | nil => rfl
  | cons r rest ih =>
    have hr := h r (List.mem_cons_self r rest)
    simp only [Oct.scanPresence]
    split_ifs with h1 h2 h3 h4
    · rfl
    · rfl
    · rw [hr] at h3
      cases h3
    · exact ih true fun x hx => h x (List.mem_cons_of_mem r hx)
    · rfl

theorem scanPresence_snd_false (l : List (List String)) (hr : Bool)
    (h : ∀ r ∈ l, pyStartsWith (pyUpper (pyStrip (r.headD ""))) "L" = false) :
    (Oct.scanPresence l hr false).2 = false := by
  induction l generalizing hr with
  | nil => rfl
  | cons r rest ih =>
    have hL := h r (List.mem_cons_self r rest)
    simp only [Oct.scanPresence]
    split_ifs with h1 h2 h3 h4
    · rfl
    · rfl
    · exact ih true fun x hx => h x (List.mem_cons_of_mem r hx)
    · rw [hL] at h4
      cases h4
    · rfl

/-- **C10** — in presence mode the scan halts at the first non-blank row
after the `Eye` header whose stripped, upper-cased first cell starts with
none of `R`, `L`, `<` (rows past it never contribute), so a side whose
rows all lie after such a row is reported not present. -/
theorem c10_presence_halts_at_junk
    (rows pre post : List (List String)) (junk : List String) (i : Nat)
    (hfind : find_eye_idx rows = some i)
    (hsplit : rows.drop (i + 1) = pre ++ junk :: post)
    (hnb : isBlankRow junk = false)
    (hR : pyStartsWith (pyUpper (pyStrip (junk.headD ""))) "R" = false)
    (hL : pyStartsWith (pyUpper (pyStrip (junk.headD ""))) "L" = false)
    (hB : pyStartsWith (pyStrip (junk.headD "")) "<" = false) :
    (∀ hr hl, Oct.scanPresence (pre ++ junk :: post) hr hl
      = Oct.scanPresence (pre ++ [junk]) hr hl) ∧
    ((∀ r ∈ pre, pyStartsWith (pyUpper (pyStrip (r.headD ""))) "R" = false) →
      (Oct.detect_eye_presence rows).1 = false) ∧
    ((∀ r ∈ pre, pyStartsWith (pyUpper (pyStrip (r.headD ""))) "L" = false) →
      (Oct.detect_eye_presence rows).2 = false) := by
  have part0 : ∀ (q : List (List String)) (hr hl : Bool),
      Oct.scanPresence (q ++ junk :: post) hr hl
        = Oct.scanPresence (q ++ [junk]) hr hl := by
    intro q
    induction q with
    | nil =>
      intro hr hl
      simp only [List.nil_append, Oct.scanPresence, hnb, hB, hR, hL,
        Bool.false_eq_true, if_false]
    | cons r pre' ih =>
      intro hr hl
      simp only [List.cons_append, Oct.scanPresence]
      split_ifs <;> first | rfl | apply ih
  have hdet : Oct.detect_eye_presence rows
      = Oct.scanPresence (pre ++ [junk]) false false := by
    unfold Oct.detect_eye_presence
    rw [hfind]
    show Oct.scanPresence (rows.drop (i + 1)) false false = _
    rw [hsplit]
    exact part0 pre false false
  refine ⟨part0 pre, ?_, ?_⟩
  · intro hnoR
    rw [hdet]
    apply scanPresence_fst_false
    intro r hrmem
    rcases List.mem_append.mp hrmem with hm | hm
    · exact hnoR r hm
    · rw [List.mem_singleton.mp hm]
      exact hR
  · intro hnoL
    rw [hdet]
    apply scanPresence_snd_false
    intro r hrmem
    rcases List.mem_append.mp hrmem with hm | hm
    · exact hnoL r hm
    · rw [List.mem_singleton.mp hm]
      exact hL

/-- Witness for C10: after the `Eye` header, the junk row `["X"]` halts
the scan, so the later `["R"]` and `["L"]` rows leave both sides
unreported. -/
theorem c10_witness :
    (Oct.detect_eye_presence [["Eye"], ["X"], ["R"], ["L"]]).1 = false ∧
    (Oct.detect_eye_presence [["Eye"], ["X"], ["R"], ["L"]]).2 = false := by
  have h := c10_presence_halts_at_junk [["Eye"], ["X"], ["R"], ["L"]]
    [] [["R"], ["L"]] ["X"] 0 (by decide) (by decide) (by decide) (by decide)
    (by decide) (by decide)
  exact ⟨h.2.1 (by intro r hr; cases hr), h.2.2 (by intro r hr; cases hr)⟩

/-! ### C2 — cell-wise per-ID merge of the Per-File Aggregator -/

/-- Claim-side helper: the sequence of cell contributions (possibly
missing) made to column `col` by the files that resolved to identifier
`id`, in processing order. -/
def contribs (rows : List Angio.PRow) (id col : String) : List (Option String) :=
  (rows.filter fun r => r.id == id).map fun r => (dget r.cells col).getD none

/-- Claim-side helper: the last non-missing value of a contribution
sequence, or missing when there is none. -/
def lastSome (l : List (Option String)) : Option String :=
  l.foldl (fun acc v => match v with
    | some w => some w
    | none => acc) none

theorem lastSome_append_one (l : List (Option String)) (v : Option String) :
    lastSome (l ++ [v]) = match v with
      | some w => some w
      | none => lastSome l := by
  unfold lastSome
  rw [List.foldl_append]
  rfl

theorem dget_applyRowCells (u : List (String × Option String))
    (hu : (u.map Prod.fst).Nodup) (b : List (String × Option String))
    (col : String) :
    dget (Angio.applyRowCells b u) col =
      match dget u col with
      | some (some w) => some (some w)
      | _ => dget b col := by
  induction u generalizing b with
  | nil => rfl
  | cons p rest ih =>
    simp only [List.map_cons, List.nodup_cons] at hu
    obtain ⟨hp, hrest⟩ := hu
    by_cases hc : p.1 = col
    · have hnone : dget rest col = none := by
        apply dget_eq_none_of_not_mem
        rw [← hc]
        exact hp
      match hv : p.2 with
      | some w =>
        simp only [Angio.applyRowCells, hv]
        rw [ih hrest]
        simp only [hnone, dget, hc, if_true, hv]
        rw [dget_dset]
        simp
      | none =>
        simp only [Angio.applyRowCells, hv]
        rw [ih hrest]
        simp only [hnone, dget, hc, if_true, hv]
    · match hv : p.2 with
      | some w =>
        simp only [Angio.applyRowCells, hv]
        rw [ih hrest]
        have hc' : ¬(col = p.1) := fun hh => hc hh.symm
        simp only [dget, hc, if_false]
        rw [dget_dset]
        simp only [hc', if_false]
      | none =>
        simp only [Angio.applyRowCells, hv]
        rw [ih hrest]
        simp only [dget, hc, if_false]

theorem merge_rows_concat (l : List Angio.PRow) (r : Angio.PRow) :
    Angio.merge_rows (l ++ [r]) = Angio.mergeStep (Angio.merge_rows l) r := by
  unfold Angio.merge_rows
  rw [List.foldl_append]
  rfl

theorem merge_rows_dget_none (rows : List Angio.PRow) (id : String)
    (h : rows.filter (fun r => r.id == id) = []) :
    dget (Angio.merge_rows rows) id = none := by
  induction rows using List.reverseRecOn with
  | nil => rfl
  | append_singleton l r ih =>
    rw [List.filter_append] at h
    obtain ⟨hl, hr⟩ := List.append_eq_nil.mp h
    have hne : ¬(r.id == id) = true := by
      intro hb
      simp [List.filter, hb] at hr
    have hne2 : ¬(id = r.id) := by
      intro hh
      exact hne (by simp [hh])
    rw [merge_rows_concat]
    unfold Angio.mergeStep
    cases hm : dget (Angio.merge_rows l) r.id <;>
      simp only [dget_dset, hne2, if_false] <;> exact ih hl

/-- **C2** — per-ID merge of the Per-File Aggregator (`main` in angio.py):
for an identifier contributed by at least one file, the merged row exists
and each side-prefixed cell equals the *last* non-missing contribution to
that cell in the directory's sorted processing order — so a later file's
missing cell never erases an earlier value, any non-missing contribution
is kept, and on a two-sided conflict the later file wins. -/
theorem c2_per_file_merge (rows : List Angio.PRow) (id col : String)
    (hkeys : ∀ r ∈ rows, (r.cells.map Prod.fst).Nodup)
    (hid : rows.filter (fun r => r.id == id) ≠ [])
    (hcol : col ∈ Angio.SIDE_COLUMNS) :
    ∃ cells, dget (Angio.merge_rows rows) id = some cells ∧
      dget cells col = some (lastSome (contribs rows id col)) := by
  induction rows using List.reverseRecOn with
  | nil => exact absurd rfl hid
  | append_singleton l r ih =>
    have hkr : (r.cells.map Prod.fst).Nodup :=
      hkeys r (List.mem_append.mpr (Or.inr (List.mem_singleton_self r)))
    have hkl : ∀ x ∈ l, (x.cells.map Prod.fst).Nodup :=
      fun x hx => hkeys x (List.mem_append.mpr (Or.inl hx))
    rw [merge_rows_concat]
    by_cases hrid : (r.id == id) = true
    · have hrid' : r.id = id := by simpa using hrid
      have hcontrib : contribs (l ++ [r]) id col
          = contribs l id col ++ [(dget r.cells col).getD none] := by
        unfold contribs
        rw [List.filter_append, List.map_append]
        simp [List.filter, hrid]
      by_cases hl : l.filter (fun x => x.id == id) = []
      · have hnone : dget (Angio.merge_rows l) id = none :=
          merge_rows_dget_none l id hl
        have hnone2 : dget (Angio.merge_rows l) r.id = none := by
          rw [hrid']
          exact hnone
        unfold Angio.mergeStep
        rw [hnone2]
        have hset : dget (dset (Angio.merge_rows l) r.id
            (Angio.applyRowCells Angio.blankCells r.cells)) id
            = some (Angio.applyRowCells Angio.blankCells r.cells) := by
          rw [dget_dset]
          simp [hrid']
        refine ⟨_, hset, ?_⟩
        rw [dget_applyRowCells r.cells hkr]
        have hblank : dget Angio.blankCells col = some none :=
          dget_map_self _ _ col hcol
        have hcl : contribs l id col = [] := by
          unfold contribs
          rw [hl]
          rfl
        rw [hcontrib, hcl, List.nil_append]
        cases hv : dget r.cells col with
        | none => simp [hblank, lastSome, hv]
        | some w =>
          cases w with
          | none => simp [hblank, lastSome, hv]
          | some u => simp [lastSome, hv]
      · obtain ⟨cur, hcur, hcell⟩ := ih hkl hl
        have hcur2 : dget (Angio.merge_rows l) r.id = some cur := by
          rw [hrid']
          exact hcur
        unfold Angio.mergeStep
        rw [hcur2]
        have hset : dget (dset (Angio.merge_rows l) r.id
            (Angio.applyRowCells cur r.cells)) id
            = some (Angio.applyRowCells cur r.cells) := by
          rw [dget_dset]
          simp [hrid']
        refine ⟨_, hset, ?_⟩
        rw [dget_applyRowCells r.cells hkr]
        rw [hcontrib, lastSome_append_one]
        cases hv : dget r.cells col with
        | none => simp [hv, hcell]
        | some w =>
          cases w with
          | none => simp [hv, hcell]
          | some u => simp [hv]
    · have hrid' : ¬(id = r.id) := by
        intro hh
        exact hrid (by simp [hh])
      have hcontrib : contribs (l ++ [r]) id col = contribs l id col := by
        unfold contribs
        rw [List.filter_append]
        simp [List.filter, hrid]
      have hfl : l.filter (fun x => x.id == id) ≠ [] := by
        intro hh
        apply hid
        rw [List.filter_append]
        simp [List.filter, hrid, hh]
      obtain ⟨cur, hcur, hcell⟩ := ih hkl hfl
      unfold Angio.mergeStep
      cases hm : dget (Angio.merge_rows l) r.id <;>
        exact ⟨cur, by rw [dget_dset]; simp [hrid', hcur], by rw [hcontrib]; exact hcell⟩

/-- Witness for C2 on three per-file rows for the same identifier: the
first file's `R_Center` survives a later file's missing cell, and the
third file's `L_Center` overwrites the second file's value. -/
theorem c2_witness :
    ∃ cells,
      dget (Angio.merge_rows
        [⟨"EG0001", [("R_Center", some "7.0"), ("L_Center", none)]⟩,
         ⟨"EG0001", [("R_Center", none), ("L_Center", some "1.0")]⟩,
         ⟨"EG0001", [("R_Center", none), ("L_Center", some "2.0")]⟩]) "EG0001"
        = some cells ∧
      dget cells "L_Center" = some (lastSome (contribs
        [⟨"EG0001", [("R_Center", some "7.0"), ("L_Center", none)]⟩,
         ⟨"EG0001", [("R_Center", none), ("L_Center", some "1.0")]⟩,
         ⟨"EG0001", [("R_Center", none), ("L_Center", some "2.0")]⟩]
        "EG0001" "L_Center")) := by
  exact c2_per_file_merge _ "EG0001" "L_Center" (by decide) (by decide) (by decide)

/-! ### C3 / C5 — the Noise Mask Applier -/

theorem clearTargets_cons (r : List (String × String)) (col0 : String)
    (rest : List String) :
    Noise.clearTargets r (col0 :: rest)
      = match dget r col0 with
        | some v =>
          if ¬(v = "") then
            ((Noise.clearTargets (dset r col0 "") rest).1,
             (Noise.clearTargets (dset r col0 "") rest).2 + 1)
          else Noise.clearTargets r rest
        | none => Noise.clearTargets r rest := rfl

theorem dget_clearTargets (cols : List String) (r : List (String × String))
    (col : String) :
    dget (Noise.clearTargets r cols).1 col =
      if cols.contains col then (dget r col).map (fun _ => "")
      else dget r col := by
  induction cols generalizing r with
  | nil => simp [Noise.clearTargets]
  | cons col0 rest ih =>
    rw [clearTargets_cons]
    cases hv : dget r col0 with
    | none =>
      dsimp only
      rw [ih r]
      by_cases hcc : col = col0
      · subst hcc
        rcases hrc : rest.contains col with _ | _ <;>
          simp [hrc, List.contains_cons, hv]
      · simp [List.contains_cons, hcc]
    | some v =>
      dsimp only
      by_cases hvne : v = ""
      · subst hvne
        rw [if_neg (by simp)]
        rw [ih r]
        by_cases hcc : col = col0
        · subst hcc
          rcases hrc : rest.contains col with _ | _ <;>
            simp [hrc, List.contains_cons, hv]
        · simp [List.contains_cons, hcc]
      · rw [if_pos hvne]
        show dget (Noise.clearTargets (dset r col0 "") rest).1 col = _
        rw [ih (dset r col0 "")]
        rw [dget_dset]
        by_cases hcc : col = col0
        · subst hcc
          rcases hrc : rest.contains col with _ | _ <;>
            simp [hrc, List.contains_cons, hv]
        · simp [List.contains_cons, hcc]

namespace Noise

/-- `key in n and is_noise(n[key])` (noise_mask.py:96). -/
def noiseFlag (n : List (String × String)) (key : String) : Bool :=
  match dget n key with
  | some v => is_noise v
  | none => false

end Noise

theorem applyTargets_cons (r n : List (String × String))
    (kt : String × List String) (rest : List (String × List String)) :
    Noise.applyTargets r n (kt :: rest)
      = if Noise.noiseFlag n kt.1 then
          ((Noise.applyTargets (Noise.clearTargets r kt.2).1 n rest).1,
           (Noise.clearTargets r kt.2).2
             + (Noise.applyTargets (Noise.clearTargets r kt.2).1 n rest).2)
        else Noise.applyTargets r n rest := rfl

theorem dget_applyTargets (ts : List (String × List String))
    (n r : List (String × String)) (col : String) :
    dget (Noise.applyTargets r n ts).1 col =
      if ts.any (fun kt => Noise.noiseFlag n kt.1 && kt.2.contains col)
      then (dget r col).map (fun _ => "") else dget r col := by
  induction ts generalizing r with
  | nil => simp [Noise.applyTargets]
  | cons kt rest ih =>
    rw [applyTargets_cons]
    by_cases hflag : Noise.noiseFlag n kt.1 = true
    · rw [if_pos hflag]
      show dget (Noise.applyTargets (Noise.clearTargets r kt.2).1 n rest).1 col = _
      rw [ih ((Noise.clearTargets r kt.2).1)]
      rw [dget_clearTargets]
      simp only [List.any_cons, hflag, Bool.true_and]
      by_cases hco : kt.2.contains col = true
      · by_cases hra :
          rest.any (fun kt => Noise.noiseFlag n kt.1 && kt.2.contains col) = true
        · simp only [hco, hra, if_true, Bool.true_or]
          cases dget r col <;> rfl
        · simp only [hco, hra, if_true, Bool.true_or, Bool.false_eq_true, if_false]
      · have hcof : kt.2.contains col = false := by
          rw [← Bool.not_eq_true]
          exact hco
        rw [hcof]
        simp only [Bool.false_eq_true, if_false, Bool.false_or]
    · have hflag' : Noise.noiseFlag n kt.1 = false := by
        rw [← Bool.not_eq_true]
        exact hflag
      rw [if_neg hflag, ih r]
      rw [List.any_cons, hflag', Bool.false_and, Bool.false_or]

theorem isFlaggedTarget_eq (n : List (String × String)) (col : String) :
    Noise.isFlaggedTarget n col
      = Noise.TARGETS.any (fun kt => Noise.noiseFlag n kt.1 && kt.2.contains col) :=
  rfl

theorem dget_applyNoiseRowTo (r n : List (String × String)) (col : String) :
    dget (Noise.applyNoiseRowTo r n).1 col =
      if Noise.isFlaggedTarget n col then (dget r col).map (fun _ => "")
      else dget r col := by
  rw [isFlaggedTarget_eq]
  exact dget_applyTargets Noise.TARGETS n r col

theorem flagged_ID_false (n : List (String × String)) :
    Noise.isFlaggedTarget n "ID" = false := by
  rw [isFlaggedTarget_eq, ← Bool.not_eq_true]
  intro hany
  obtain ⟨kt, hmem, hp⟩ := List.any_eq_true.mp hany
  have hall : ∀ kt ∈ Noise.TARGETS, kt.2.contains "ID" = false := by decide
  rw [Bool.and_eq_true, hall kt hmem] at hp
  cases hp.2

theorem rowId_applyNoiseRowTo (r n : List (String × String)) :
    Noise.rowId (Noise.applyNoiseRowTo r n).1 = Noise.rowId r := by
  unfold Noise.rowId
  rw [dget_applyNoiseRowTo, flagged_ID_false]
  rfl

theorem updateLast_getElem (m : List (List (String × String))) (pid : String)
    (f : List (String × String) → List (String × String) × Nat)
    (hm : (m.map Noise.rowId).Nodup) (i : Nat) :
    (Noise.updateLastWithId m pid f).1[i]?
      = (m[i]?).map fun row =>
          if Noise.rowId row = pid then (f row).1 else row := by
  induction m generalizing i with
  | nil => simp [Noise.updateLastWithId]
  | cons r rest ih =>
    simp only [List.map_cons, List.nodup_cons] at hm
    obtain ⟨hnotin, hnd⟩ := hm
    simp only [Noise.updateLastWithId]
    by_cases hh : Noise.hasRowId rest pid = true
    · have hrne : ¬(Noise.rowId r = pid) := by
        intro he
        obtain ⟨x, hx, hpx⟩ := List.any_eq_true.mp hh
        have hxe : Noise.rowId x = pid := of_decide_eq_true hpx
        exact hnotin (by
          rw [he, ← hxe]
          exact List.mem_map_of_mem Noise.rowId hx)
      rw [if_pos hh]
      match i with
      | 0 => simp [hrne]
      | i + 1 =>
        simp only [List.getElem?_cons_succ]
        exact ih hnd i
    · rw [if_neg hh]
      have hrestne : ∀ x ∈ rest, ¬(Noise.rowId x = pid) := by
        intro x hx he
        exact hh (List.any_eq_true.mpr ⟨x, hx, decide_eq_true he⟩)
      by_cases hr : Noise.rowId r = pid
      · rw [if_pos hr]
        match i with
        | 0 => simp [hr]
        | i + 1 =>
          simp only [List.getElem?_cons_succ]
          cases hgi : rest[i]? with
          | none => rfl
          | some row =>
            have hmem : row ∈ rest := List.getElem?_mem hgi
            simp [hrestne row hmem]
      · rw [if_neg hr]
        match i with
        | 0 => simp [hr]
        | i + 1 =>
          simp only [List.getElem?_cons_succ]
          cases hgi : rest[i]? with
          | none => rfl
          | some row =>
            have hmem : row ∈ rest := List.getElem?_mem hgi
            simp [hrestne row hmem]

theorem noiseStep_getElem (m : List (List (String × String)))
    (n : List (String × String)) (hm : (m.map Noise.rowId).Nodup) (i : Nat) :
    (Noise.noiseStep m n).1[i]?
      = (m[i]?).map fun row =>
          if ¬(Noise.rowId n = "") ∧ Noise.rowId row = Noise.rowId n
          then (Noise.applyNoiseRowTo row n).1 else row := by
  unfold Noise.noiseStep
  by_cases hpid : Noise.rowId n = ""
  · rw [if_pos hpid]
    cases hgi : m[i]? with
    | none => rfl
    | some row => simp [hpid]
  · rw [if_neg hpid]
    by_cases hh : Noise.hasRowId m (Noise.rowId n) = true
    · rw [if_pos hh]
      rw [updateLast_getElem m (Noise.rowId n) _ hm i]
      cases hgi : m[i]? with
      | none => rfl
      | some row =>
        by_cases hr : Noise.rowId row = Noise.rowId n
        · simp [hr, hpid]
        · simp [hr, hpid]
    · rw [if_neg hh]
      have hne : ∀ x ∈ m, ¬(Noise.rowId x = Noise.rowId n) := by
        intro x hx he
        exact hh (List.any_eq_true.mpr ⟨x, hx, decide_eq_true he⟩)
      cases hgi : m[i]? with
      | none => rfl
      | some row =>
        have hmem : row ∈ m := List.getElem?_mem hgi
        simp [hne row hmem]

theorem noiseStep_rowIds (m : List (List (String × String)))
    (n : List (String × String)) (hm : (m.map Noise.rowId).Nodup) :
    (Noise.noiseStep m n).1.map Noise.rowId = m.map Noise.rowId := by
  apply List.ext_getElem?
  intro i
  rw [List.getElem?_map, List.getElem?_map, noiseStep_getElem m n hm i]
  cases hgi : m[i]? with
  | none => rfl
  | some row =>
    simp only [Option.map_map, Option.map_some', Function.comp]
    split
    · rw [rowId_applyNoiseRowTo]
    · rfl

theorem mask_foldl_shift (noise : List (List (String × String)))
    (x : List (List (String × String))) (k : Nat) :
    noise.foldl (fun acc n =>
        ((Noise.noiseStep acc.1 n).1, acc.2 + (Noise.noiseStep acc.1 n).2)) (x, k)
      = ((noise.foldl (fun acc n =>
          ((Noise.noiseStep acc.1 n).1, acc.2 + (Noise.noiseStep acc.1 n).2)) (x, 0)).1,
         k + (noise.foldl (fun acc n =>
          ((Noise.noiseStep acc.1 n).1, acc.2 + (Noise.noiseStep acc.1 n).2)) (x, 0)).2) := by
  induction noise generalizing x k with
  | nil => simp
  | cons n rest ih =>
    rw [List.foldl_cons, List.foldl_cons]
    dsimp only
    rw [ih ((Noise.noiseStep x n).1) (k + (Noise.noiseStep x n).2),
      ih ((Noise.noiseStep x n).1) (0 + (Noise.noiseStep x n).2)]
    rw [Prod.mk.injEq]
    refine ⟨rfl, ?_⟩
    dsimp only
    omega

theorem apply_noise_mask_cons_fst (m : List (List (String × String)))
    (n : List (String × String)) (rest : List (List (String × String))) :
    (Noise.apply_noise_mask m (n :: rest)).1
      = (Noise.apply_noise_mask (Noise.noiseStep m n).1 rest).1 := by
  unfold Noise.apply_noise_mask
  rw [List.foldl_cons]
  dsimp only
  rw [mask_foldl_shift rest ((Noise.noiseStep m n).1) (0 + (Noise.noiseStep m n).2)]

theorem apply_noise_mask_getElem (noise m : List (List (String × String)))
    (hm : (m.map Noise.rowId).Nodup) (hn : (noise.map Noise.rowId).Nodup)
    (i : Nat) :
    (Noise.apply_noise_mask m noise).1[i]?
      = (m[i]?).map fun row =>
          match noise.find? (fun nn =>
              decide (Noise.rowId nn = Noise.rowId row)
                && decide (¬(Noise.rowId nn = ""))) with
          | some nn => (Noise.applyNoiseRowTo row nn).1
          | none => row := by
  induction noise generalizing m i with
  | nil =>
    show m[i]? = _
    cases m[i]? <;> rfl
  | cons n rest ih =>
    simp only [List.map_cons, List.nodup_cons] at hn
    obtain ⟨hnin, hnd⟩ := hn
    have hm' : ((Noise.noiseStep m n).1.map Noise.rowId).Nodup := by
      rw [noiseStep_rowIds m n hm]
      exact hm
    rw [apply_noise_mask_cons_fst, ih ((Noise.noiseStep m n).1) hm' hnd i,
      noiseStep_getElem m n hm i]
    cases hgi : m[i]? with
    | none => rfl
    | some row =>
      simp only [Option.map_some', Option.map_map, Function.comp]
      by_cases hp : ¬(Noise.rowId n = "") ∧ Noise.rowId row = Noise.rowId n
      · rw [if_pos hp]
        have hfindnil : rest.find? (fun nn =>
            decide (Noise.rowId nn = Noise.rowId (Noise.applyNoiseRowTo row n).1)
              && decide (¬(Noise.rowId nn = ""))) = none := by
          rw [List.find?_eq_none]
          intro nn hnn hb
          rw [Bool.and_eq_true, decide_eq_true_eq, decide_eq_true_eq] at hb
          apply hnin
          have hnne : Noise.rowId nn = Noise.rowId n := by
            rw [hb.1, rowId_applyNoiseRowTo, hp.2]
          rw [← hnne]
          exact List.mem_map_of_mem Noise.rowId hnn
        rw [hfindnil]
        have hcons : List.find? (fun nn =>
            decide (Noise.rowId nn = Noise.rowId row)
              && decide (¬(Noise.rowId nn = ""))) (n :: rest) = some n := by
          rw [List.find?_cons]
          rw [show (decide (Noise.rowId n = Noise.rowId row)
              && decide (¬(Noise.rowId n = ""))) = true by
            rw [Bool.and_eq_true, decide_eq_true_eq, decide_eq_true_eq]
            exact ⟨hp.2.symm, hp.1⟩]
        rw [hcons]
      · rw [if_neg hp]
        have hpn : (decide (Noise.rowId n = Noise.rowId row)
            && decide (¬(Noise.rowId n = ""))) = false := by
          rw [← Bool.not_eq_true, Bool.and_eq_true, decide_eq_true_eq,
            decide_eq_true_eq]
          intro hb
          exact hp ⟨hb.2, hb.1.symm⟩
        have hcons : List.find? (fun nn =>
            decide (Noise.rowId nn = Noise.rowId row)
              && decide (¬(Noise.rowId nn = ""))) (n :: rest)
            = List.find? (fun nn =>
                decide (Noise.rowId nn = Noise.rowId row)
                  && decide (¬(Noise.rowId nn = ""))) rest := by
          rw [List.find?_cons, hpn]
        rw [hcons]

/-- **C3** — for keyed tables (unique identifiers per table), every target
cell of a row whose identifier also appears in the Noise Annotation Table
is cleared exactly when its column is a fine-sector target of a flagged
quadrant of that noise row (`TARGETS` maps `Center` to itself and each of
Superior/Inferior/Nasal/Temporal to its Inner/Outer pair; a flag is a
stripped `"1"`/`"１"`); every other cell — quadrants valued `"0"`, blank,
or absent — is left unchanged, as is every row whose identifier has no
noise entry. -/
theorem c3_noise_mask_cells (merged noise : List (List (String × String)))
    (hm : (merged.map Noise.rowId).Nodup) (hn : (noise.map Noise.rowId).Nodup)
    (i : Nat) (col : String) :
    ((Noise.apply_noise_mask merged noise).1.map (fun r => dget r col))[i]?
      = (merged[i]?).map fun row =>
          match noise.find? (fun nn =>
              decide (Noise.rowId nn = Noise.rowId row)
                && decide (¬(Noise.rowId nn = ""))) with
          | some nn =>
            if Noise.isFlaggedTarget nn col then (dget row col).map (fun _ => "")
            else dget row col
          | none => dget row col := by
  rw [List.getElem?_map, apply_noise_mask_getElem noise merged hm hn i]
  cases hgi : merged[i]? with
  | none => rfl
  | some row =>
    simp only [Option.map_some']
    cases hfind : noise.find? (fun nn =>
        decide (Noise.rowId nn = Noise.rowId row)
          && decide (¬(Noise.rowId nn = ""))) with
    | none => rfl
    | some nn =>
      dsimp only
      rw [dget_applyNoiseRowTo]

/-- Witness for C3: flagging `L-Superior` (value `"1"`) clears
`L-Inner_Superior`, while `L-Center` (value `"0"`, not a flag) keeps its
value `"3.5"`. -/
theorem c3_witness :
    ((Noise.apply_noise_mask
        [[("ID", "EG0001"), ("L-Inner_Superior", "1.5"),
          ("L-Outer_Superior", "2.5"), ("L-Center", "3.5")]]
        [[("ID", "EG0001"), ("L-Superior", "1"), ("L-Center", "0")]]).1.map
      (fun r => dget r "L-Inner_Superior"))[0]? = some (some "") ∧
    ((Noise.apply_noise_mask
        [[("ID", "EG0001"), ("L-Inner_Superior", "1.5"),
          ("L-Outer_Superior", "2.5"), ("L-Center", "3.5")]]
        [[("ID", "EG0001"), ("L-Superior", "1"), ("L-Center", "0")]]).1.map
      (fun r => dget r "L-Center"))[0]? = some (some "3.5") := by
  constructor
  · have h := c3_noise_mask_cells
      [[("ID", "EG0001"), ("L-Inner_Superior", "1.5"),
        ("L-Outer_Superior", "2.5"), ("L-Center", "3.5")]]
      [[("ID", "EG0001"), ("L-Superior", "1"), ("L-Center", "0")]]
      (by decide) (by decide) 0 "L-Inner_Superior"
    rw [h]
    decide
  · have h := c3_noise_mask_cells
      [[("ID", "EG0001"), ("L-Inner_Superior", "1.5"),
        ("L-Outer_Superior", "2.5"), ("L-Center", "3.5")]]
      [[("ID", "EG0001"), ("L-Superior", "1"), ("L-Center", "0")]]
      (by decide) (by decide) 0 "L-Center"
    rw [h]
    decide

theorem clearTargets_zero (cols : List String) (r : List (String × String))
    (h : (Noise.clearTargets r cols).2 = 0) :
    (Noise.clearTargets r cols).1 = r := by
  induction cols generalizing r with
  | nil => rfl
  | cons col0 rest ih =>
    rw [clearTargets_cons] at h ⊢
    cases hv : dget r col0 with
    | none =>
      rw [hv] at h
      dsimp only at h ⊢
      exact ih r h
    | some v =>
      rw [hv] at h
      dsimp only at h ⊢
      by_cases hvne : v = ""
      · subst hvne
        rw [if_neg (by simp)] at h ⊢
        exact ih r h
      · rw [if_pos hvne] at h
        exact absurd h (Nat.succ_ne_zero _)

theorem applyTargets_zero (ts : List (String × List String))
    (n r : List (String × String))
    (h : (Noise.applyTargets r n ts).2 = 0) :
    (Noise.applyTargets r n ts).1 = r := by
  induction ts generalizing r with
  | nil => rfl
  | cons kt rest ih =>
    rw [applyTargets_cons] at h ⊢
    by_cases hflag : Noise.noiseFlag n kt.1 = true
    · rw [if_pos hflag] at h ⊢
      dsimp only at h ⊢
      have hc : (Noise.clearTargets r kt.2).2 = 0 := by omega
      have hr : (Noise.applyTargets (Noise.clearTargets r kt.2).1 n rest).2 = 0 := by
        omega
      have hcr := clearTargets_zero kt.2 r hc
      rw [hcr] at hr ⊢
      exact ih r hr
    · rw [if_neg hflag] at h ⊢
      exact ih r h

theorem applyNoiseRowTo_zero (r n : List (String × String))
    (h : (Noise.applyNoiseRowTo r n).2 = 0) :
    (Noise.applyNoiseRowTo r n).1 = r :=
  applyTargets_zero Noise.TARGETS n r h

theorem updateLast_zero (m : List (List (String × String))) (pid : String)
    (f : List (String × String) → List (String × String) × Nat)
    (hf : ∀ r, (f r).2 = 0 → (f r).1 = r)
    (h : (Noise.updateLastWithId m pid f).2 = 0) :
    (Noise.updateLastWithId m pid f).1 = m := by
  induction m with
  | nil => rfl
  | cons r rest ih =>
    simp only [Noise.updateLastWithId] at h ⊢
    by_cases hh : Noise.hasRowId rest pid = true
    · rw [if_pos hh] at h ⊢
      dsimp only at h ⊢
      rw [ih h]
    · rw [if_neg hh] at h ⊢
      by_cases hr : Noise.rowId r = pid
      · rw [if_pos hr] at h ⊢
        dsimp only at h ⊢
        rw [hf r h]
      · rw [if_neg hr]

theorem noiseStep_zero (m : List (List (String × String)))
    (n : List (String × String)) (h : (Noise.noiseStep m n).2 = 0) :
    (Noise.noiseStep m n).1 = m := by
  unfold Noise.noiseStep at h ⊢
  by_cases hpid : Noise.rowId n = ""
  · rw [if_pos hpid]
  · rw [if_neg hpid] at h ⊢
    by_cases hh : Noise.hasRowId m (Noise.rowId n) = true
    · rw [if_pos hh] at h ⊢
      exact updateLast_zero m (Noise.rowId n) _
        (fun r => applyNoiseRowTo_zero r n) h
    · rw [if_neg hh]

theorem mask_fold_zero (noise m : List (List (String × String)))
    (h : (Noise.apply_noise_mask m noise).2 = 0) :
    (Noise.apply_noise_mask m noise).1 = m := by
  induction noise generalizing m with
  | nil => rfl
  | cons n rest ih =>
    have hsplit : Noise.apply_noise_mask m (n :: rest)
        = ((Noise.apply_noise_mask (Noise.noiseStep m n).1 rest).1,
           (0 + (Noise.noiseStep m n).2)
             + (Noise.apply_noise_mask (Noise.noiseStep m n).1 rest).2) := by
      unfold Noise.apply_noise_mask
      rw [List.foldl_cons]
      dsimp only
      rw [mask_foldl_shift rest ((Noise.noiseStep m n).1)
        (0 + (Noise.noiseStep m n).2)]
    rw [hsplit] at h ⊢
    dsimp only at h ⊢
    have hc : (Noise.noiseStep m n).2 = 0 := by omega
    have hrest : (Noise.apply_noise_mask (Noise.noiseStep m n).1 rest).2 = 0 := by
      omega
    rw [noiseStep_zero m n hc] at hrest ⊢
    exact ih m hrest

/-- Counterexample to C5: the Noise Mask Applier does *not* leave its
target table unchanged — `apply_noise_mask` mutates the target rows in
place (modelled as their post-state), and here the flagged `L-Center` cell
is cleared, so the post-state differs from the input. -/
theorem c5_counterexample :
    (Noise.apply_noise_mask
        [[("ID", "EG0001"), ("L-Center", "5")]]
        [[("ID", "EG0001"), ("L-Center", "1")]]).1
      ≠ [[("ID", "EG0001"), ("L-Center", "5")]] := by
  decide

/-- **C5 (amended)** — the Cross-Table Merger builds its output from its
inputs without writing to them (it is a pure function of them in this
embedding), but the Noise Mask Applier mutates its target table in place:
the target's post-state equals its pre-state exactly in the runs that mask
zero cells; whenever a cell is cleared the input table is changed.  (The
noise annotation table itself is never written.) -/
theorem c5_amended_mask_purity (merged noise : List (List (String × String)))
    (h : (Noise.apply_noise_mask merged noise).2 = 0) :
    (Noise.apply_noise_mask merged noise).1 = merged :=
  mask_fold_zero noise merged h

/-- Witness for the amended C5: a run with no flags set masks zero cells
and leaves the target unchanged. -/
theorem c5_amended_witness :
    (Noise.apply_noise_mask
        [[("ID", "EG0001"), ("L-Center", "5")]]
        [[("ID", "EG0001"), ("L-Center", "0")]]).1
      = [[("ID", "EG0001"), ("L-Center", "5")]] :=
  c5_amended_mask_purity
    [[("ID", "EG0001"), ("L-Center", "5")]]
    [[("ID", "EG0001"), ("L-Center", "0")]] (by decide)
